import Mathlib

/-!
Verification of the cave-exploration controller (`cave_explorer.py`).

The Python source is shallowly embedded below.  Floating-point quantities
are modelled with exact rationals; the trigonometric constant `2 * math.pi`
appearing in `wrap_angle` is abstracted as a positive rational parameter
`twoPi` (the properties at stake concern only the interval structure of the
wrapping loops, not the numerical value of pi).  Stateful methods are
modelled as explicit state-passing functions; Python exceptions are
modelled with `Except String`.
-/

namespace CaveExplorer

/-- Python's `int(q)` on a rational: truncation toward zero
(`Int.tdiv` truncates toward zero and `q.den > 0`). -/
def pyTrunc (q : ℚ) : ℤ := Int.tdiv q.num q.den

/-- `PlannerType` enum from the source (lines 50-58). -/
inductive PlannerType where
  | ERROR
  | MOVE_FORWARDS
  | RETURN_HOME
  | GO_TO_FIRST_ARTIFACT
  | RANDOM_WALK
  | RANDOM_GOAL
  | FRONTIER_EXPLORER
deriving DecidableEq, Repr

/-- `actionlib.GoalStatus` constants used by the source. -/
inductive GoalStatus where
  | pending
  | active
  | preempted
  | succeeded
  | aborted
  | rejected
  | preempting
  | recalling
  | recalled
  | lost
deriving DecidableEq, Repr

/-- `geometry_msgs/Pose2D`: all fields default to zero, matching the
zero-initialised message produced by the `Pose2D()` constructor. -/
structure Pose2D where
  x : ℚ := 0
  y : ℚ := 0
  theta : ℚ := 0
deriving DecidableEq, Repr

/-- The goal sent to `move_base`: the unique id taken from `goal_counter_`
and the target position of `action_goal.goal.target_pose.pose`
(the quaternion produced by `pose2d_to_pose` carries no information the
properties below depend on, so only the planar target is recorded). -/
structure MoveBaseGoal where
  goal_id : ℕ
  targetX : ℚ
  targetY : ℚ
deriving DecidableEq, Repr

/-- The mutable fields of the `CaveExplorer` object that the embedded
methods read or write (source lines 61-75).  The source initialises an
attribute spelled `finised_exploring` (line 73) while
`planner_to_frontiers` assigns a distinctly spelled attribute
`finished_exploring` (line 425); both are modelled as separate fields,
exactly as Python keeps them as separate attributes. -/
structure ExplorerState where
  localised_ : Bool := false
  artifact_found_ : Bool := false
  planner_type_ : PlannerType := PlannerType.ERROR
  reached_first_artifact_ : Bool := false
  returned_home_ : Bool := false
  reached_closest_frontier_ : Bool := false
  finised_exploring : Bool := false
  finished_exploring : Bool := false
  rotate_ : Bool := false
  goal_counter_ : ℕ := 0
deriving DecidableEq, Repr

/-- The state constructed by `CaveExplorer.__init__`
(`finished_exploring` stands for the attribute that does not exist yet;
it is only ever written, never read, by the source). -/
def initState : ExplorerState := {}

/-! ## `wrap_angle` (source lines 27-35)

The source loops `while angle < 0: angle += 2*pi` and then
`while angle > 2*pi: angle -= 2*pi`.  The constant `2 * math.pi` is
abstracted as a parameter `twoPi` together with a proof `0 < twoPi`
(which the real constant satisfies); the proof is needed for the
termination of the loops. -/

/-- First loop of `wrap_angle`: add `twoPi` while the angle is negative. -/
def wrapUp (twoPi : ℚ) (h : 0 < twoPi) (angle : ℚ) : ℚ :=
  if angle < 0 then wrapUp twoPi h (angle + twoPi) else angle
termination_by (⌈-angle / twoPi⌉).toNat
decreasing_by
  rename_i h0
  have h1 : 0 < -angle / twoPi := div_pos (by linarith) h
  have h2 : ⌈-(angle + twoPi) / twoPi⌉ = ⌈-angle / twoPi⌉ - 1 := by
    rw [show -(angle + twoPi) / twoPi = -angle / twoPi - 1 by
      field_simp; ring]
    exact Int.ceil_sub_one _
  have h3 : 0 < ⌈-angle / twoPi⌉ := Int.ceil_pos.mpr h1
  omega

/-- Second loop of `wrap_angle`: subtract `twoPi` while the angle exceeds
`twoPi`. -/
def wrapDown (twoPi : ℚ) (h : 0 < twoPi) (angle : ℚ) : ℚ :=
  if twoPi < angle then wrapDown twoPi h (angle - twoPi) else angle
termination_by (⌈angle / twoPi⌉).toNat
decreasing_by
  rename_i h0
  have h1 : 1 < angle / twoPi := (one_lt_div h).mpr (by linarith)
  have h2 : ⌈(angle - twoPi) / twoPi⌉ = ⌈angle / twoPi⌉ - 1 := by
    rw [show (angle - twoPi) / twoPi = angle / twoPi - 1 by field_simp]
    exact Int.ceil_sub_one _
  have h3 : (1 : ℤ) < ⌈angle / twoPi⌉ := by
    rw [Int.lt_ceil]
    exact_mod_cast h1
  omega

/-- `wrap_angle`: both loops in sequence. -/
def wrapAngle (twoPi : ℚ) (h : 0 < twoPi) (angle : ℚ) : ℚ :=
  wrapDown twoPi h (wrapUp twoPi h angle)

/-! ## Occupancy grid snapshot

`planner_to_frontiers` reads `self.grid_map_.info` and reshapes
`self.grid_map_.data` to `(height, width)` (row-major), so cell `(x, y)`
is `data[y * width + x]`.  `numpy.reshape` raises unless the data length
is exactly `width * height`, and a physical occupancy grid has a positive
resolution, so both facts are part of the snapshot. -/

structure Grid where
  width : ℕ
  height : ℕ
  resolution : ℚ
  originX : ℚ
  originY : ℚ
  data : List ℤ
  hdata : data.length = width * height
  hres : 0 < resolution

/-- `map_data[y, x]` (in-bounds reads never hit the default thanks to
`Grid.hdata`; the default is a value that is neither free nor unknown). -/
def cellAt (g : Grid) (y x : ℕ) : ℤ :=
  (g.data.get? (y * g.width + x)).getD 100

/-- The `(dx, dy)` offsets produced by
`for dx in [-1, 0, 1] for dy in [-1, 0, 1] if (dx != 0 or dy != 0)`,
in Python's enumeration order. -/
def deltas : List (ℤ × ℤ) :=
  [(-1, -1), (-1, 0), (-1, 1), (0, -1), (0, 1), (1, -1), (1, 0), (1, 1)]

/-- The in-bounds 8-neighbourhood computed at source line 337. -/
def neighbours8 (w h x y : ℕ) : List (ℕ × ℕ) :=
  deltas.filterMap fun d =>
    let nx : ℤ := (x : ℤ) + d.1
    let ny : ℤ := (y : ℤ) + d.2
    if 0 ≤ nx ∧ nx < (w : ℤ) ∧ 0 ≤ ny ∧ ny < (h : ℤ) then
      some (nx.toNat, ny.toNat)
    else none

/-- Frontier detection (source lines 334-340), at grid-cell level: the
`(x, y)` pairs, in the loop's row-major order, for which the appended
world point `(x*resolution + origin_x, y*resolution + origin_y)` is
produced. -/
def frontierCellsG (g : Grid) : List (ℕ × ℕ) :=
  (List.range g.height).flatMap fun y =>
    (List.range g.width).filterMap fun x =>
      if cellAt g y x = 0 ∧
          (neighbours8 g.width g.height x y).any
            (fun p => cellAt g p.2 p.1 = -1) then
        some (x, y)
      else none

/-- The `frontiers` list of world coordinates built at lines 334-340. -/
def worldFrontiers (g : Grid) : List (ℚ × ℚ) :=
  (frontierCellsG g).map fun c =>
    ((c.1 : ℚ) * g.resolution + g.originX,
     (c.2 : ℚ) * g.resolution + g.originY)

/-- The `queue` of integer grid coordinates rebuilt from the world
coordinates at source line 345:
`(int((wx - origin_x) / resolution), int((wy - origin_y) / resolution))`. -/
def buildQueue (g : Grid) : List (ℤ × ℤ) :=
  (worldFrontiers g).map fun wc =>
    (pyTrunc ((wc.1 - g.originX) / g.resolution),
     pyTrunc ((wc.2 - g.originY) / g.resolution))

/-! ## Frontier grouping (source lines 344-379)

The source runs a worklist algorithm: an outer loop pops cells off
`queue`, and an inner loop pops cells off `to_visit`, marking them
visited, collecting them into `current_group`, and moving any 8-neighbour
still present in `queue` over to `to_visit`.  Both loops are embedded
with an explicit fuel argument that is structurally decreasing; each
iteration of either loop reduces `queue.length + to_visit.length` (outer)
resp. leaves it reduced by one (inner), so the fuel supplied by
`clusterFrontiers` is always sufficient (proved below). -/

/-- One cell here is the `(int, int)` pair the source manipulates. -/
abbrev Cell := ℤ × ℤ

/-- The in-bounds 8-neighbourhood computed at source lines 367-370
(integer coordinates, bounds `0 <= c+d < width/height`). -/
def neighboursZ (w h : ℕ) (c : Cell) : List Cell :=
  deltas.filterMap fun d =>
    let n : Cell := (c.1 + d.1, c.2 + d.2)
    if 0 ≤ n.1 ∧ n.1 < (w : ℤ) ∧ 0 ≤ n.2 ∧ n.2 < (h : ℤ) then some n
    else none

/-- Source lines 372-375: for each neighbour, if it is still in `queue`,
remove it from `queue` and append it to `to_visit`. -/
def moveNeighbours (nbrs : List Cell) (queue toVisit : List Cell) :
    List Cell × List Cell :=
  nbrs.foldl
    (fun p n => if n ∈ p.1 then (p.1.erase n, p.2 ++ [n]) else p)
    (queue, toVisit)

/-- The inner `while to_visit:` loop (source lines 358-375).  Returns the
remaining `queue`, the updated `visited`, and the finished
`current_group`.  With enough fuel the `0` case is never reached. -/
def bfsVisit (w h : ℕ) :
    ℕ → List Cell → List Cell → List Cell → List Cell →
    List Cell × List Cell × List Cell
  | 0, queue, _, visited, grp => (queue, visited, grp)
  | _ + 1, queue, [], visited, grp => (queue, visited, grp)
  | fuel + 1, queue, f :: rest, visited, grp =>
    if f ∈ visited then bfsVisit w h fuel queue rest visited grp
    else
      let moved := moveNeighbours (neighboursZ w h f) queue rest
      bfsVisit w h fuel moved.1 moved.2 (visited ++ [f]) (grp ++ [f])

/-- Source line 378: `if len(current_group) > 500`. -/
def groupRetained (grp : List Cell) : Bool := decide (500 < grp.length)

/-- The outer `while queue:` loop (source lines 348-379).  The first
component accumulates `grouped_frontiers` (groups passing the size
check); the second accumulates every group that was formed, retained or
not, which is what the partition property is about. -/
def clusterLoop (w h : ℕ) :
    ℕ → List Cell → List Cell → List (List Cell) → List (List Cell) →
    List (List Cell) × List (List Cell)
  | 0, _, _, gs, ags => (gs, ags)
  | _ + 1, [], _, gs, ags => (gs, ags)
  | fuel + 1, current :: queue, visited, gs, ags =>
    if current ∈ visited then clusterLoop w h fuel queue visited gs ags
    else
      let r := bfsVisit w h (queue.length + 1) queue [current] visited []
      clusterLoop w h fuel r.1 r.2.1
        (if groupRetained r.2.2 then gs ++ [r.2.2] else gs)
        (ags ++ [r.2.2])

/-- The whole grouping pass: `grouped_frontiers` together with the list
of all groups formed.  `queue.length + 1` units of fuel suffice for the
outer loop because every iteration strictly shrinks the queue. -/
def clusterFrontiers (w h : ℕ) (queue : List Cell) :
    List (List Cell) × List (List Cell) :=
  clusterLoop w h (queue.length + 1) queue [] [] []

/-! ## Goal selection (source lines 382-421) -/

/-- Centroid of a group in world coordinates (source lines 392-396):
mean grid coordinates, then `* resolution + origin`. -/
def worldCentroid (grp : List Cell) (res ox oy : ℚ) : ℚ × ℚ :=
  (((grp.map (fun c => (c.1 : ℚ))).sum / (grp.length : ℚ)) * res + ox,
   ((grp.map (fun c => (c.2 : ℚ))).sum / (grp.length : ℚ)) * res + oy)

/-- Squared Euclidean distance.  The source compares
`((wx-rx)**2 + (wy-ry)**2) ** 0.5` values; since the square root is
strictly monotone on nonnegative reals, comparing the squares is
equivalent, and keeps the embedding inside ℚ. -/
def sqDist (a b : ℚ × ℚ) : ℚ := (a.1 - b.1) ^ 2 + (a.2 - b.2) ^ 2

/-- The `for group in grouped_frontiers` selection loop (source lines
387-403): running minimum starting from `min_distance = inf`
(modelled by `none`), updated only on strict decrease, so the first
group attaining the minimum wins. -/
def selectClosestGroup (groups : List (List Cell)) (res ox oy rx ry : ℚ) :
    Option (List Cell) :=
  (groups.foldl
    (fun acc grp =>
      let d := sqDist (worldCentroid grp res ox oy) (rx, ry)
      match acc with
      | none => some (grp, d)
      | some best => if d < best.2 then some (grp, d) else some best)
    none).map Prod.fst

/-- Source line 383: `robot_pose = Pose2D()` — a freshly constructed,
zero-initialised pose; `get_pose_2d` is not called here. -/
def plannerRobotPose : Pose2D := {}

/-- The goal the source builds for the selected group (lines 405-418):
the centroid of the group is recomputed and sent as the target position,
with the goal id drawn from `goal_counter_`. -/
def frontierGoal (counter : ℕ) (grp : List Cell) (res ox oy : ℚ) :
    MoveBaseGoal :=
  { goal_id := counter
    targetX := (worldCentroid grp res ox oy).1
    targetY := (worldCentroid grp res ox oy).2 }

/-- `planner_to_frontiers` (source lines 319-426).  Exceptions raised by
the Python code are modelled as `Except.error`:
* line 341 logs `max(frontiers, key=len)`, which raises `ValueError`
  when `frontiers` is empty (otherwise the call only feeds the log and
  its value is discarded);
* line 405 iterates over `closest_frontier_group`, which is still `None`
  when `grouped_frontiers` was empty, raising `TypeError`.
The `else` branch of `if frontiers:` (lines 424-426) assigns the
attribute `finished_exploring` — not the `finised_exploring` attribute
initialised in `__init__`. -/
def plannerToFrontiers (s : ExplorerState) (g : Grid)
    (actionState : GoalStatus) :
    Except String (ExplorerState × Option MoveBaseGoal) :=
  if actionState = GoalStatus.active then Except.ok (s, none)
  else
    let frontiers := worldFrontiers g
    if frontiers.isEmpty then
      -- line 341: max() over the empty frontier list raises here, before
      -- the grouping and before the `if frontiers:` test, so the
      -- exploration-complete branch (lines 424-426) is unreachable
      Except.error "ValueError: max() arg is an empty sequence"
    else
      -- line 341 logging succeeds (its value is discarded); group and
      -- select; `if frontiers:` at line 382 is necessarily true here
      let groups := (clusterFrontiers g.width g.height (buildQueue g)).1
      match selectClosestGroup groups g.resolution g.originX g.originY
          plannerRobotPose.x plannerRobotPose.y with
      | none =>
        Except.error "TypeError: NoneType object is not iterable"
      | some grp =>
        Except.ok
          ({ s with goal_counter_ := s.goal_counter_ + 1 },
           some (frontierGoal s.goal_counter_ grp g.resolution
             g.originX g.originY))

/-! ## The other planner routines (source lines 193-316)

Each routine possibly sends one goal to `move_base` and bumps
`goal_counter_`; the returned pair is the updated counter together with
the goal sent this tick, if any.  Values coming from outside the
function (the current pose with its sine/cosine as computed by
`math.sin`/`math.cos`, the draws of the `random` module) are passed in
as parameters. -/

/-- `planner_move_forwards` (lines 193-217): sends only when the action
state is `LOST`; the target is the current pose advanced by 10 m along
the heading (`cosTheta`/`sinTheta` stand for `math.cos(pose_2d.theta)`
and `math.sin(pose_2d.theta)`). -/
def plannerMoveForwards (counter : ℕ) (pose : Pose2D)
    (cosTheta sinTheta : ℚ) (actionState : GoalStatus) :
    ℕ × Option MoveBaseGoal :=
  if actionState = GoalStatus.lost then
    (counter + 1,
     some { goal_id := counter
            targetX := pose.x + 10 * cosTheta
            targetY := pose.y + 10 * sinTheta })
  else (counter, none)

/-- `planner_go_to_first_artifact` (lines 220-240): sends the fixed goal
(18, 25) unless a goal is `ACTIVE`. -/
def plannerGoToFirstArtifact (counter : ℕ) (actionState : GoalStatus) :
    ℕ × Option MoveBaseGoal :=
  if actionState ≠ GoalStatus.active then
    (counter + 1, some { goal_id := counter, targetX := 18, targetY := 25 })
  else (counter, none)

/-- `planner_return_home` (lines 243-263): sends the fixed goal (0, 0)
unless a goal is `ACTIVE`. -/
def plannerReturnHome (counter : ℕ) (actionState : GoalStatus) :
    ℕ × Option MoveBaseGoal :=
  if actionState ≠ GoalStatus.active then
    (counter + 1, some { goal_id := counter, targetX := 0, targetY := 0 })
  else (counter, none)

/-- `planner_random_walk` (lines 265-290): sends a uniformly drawn goal
(the draws are parameters) unless a goal is `ACTIVE`. -/
def plannerRandomWalk (counter : ℕ) (randX randY : ℚ)
    (actionState : GoalStatus) : ℕ × Option MoveBaseGoal :=
  if actionState ≠ GoalStatus.active then
    (counter + 1, some { goal_id := counter, targetX := randX, targetY := randY })
  else (counter, none)

/-- The hand-picked goal list of `planner_random_goal` (line 296). -/
def randomGoals : List (ℚ × ℚ) :=
  [(53.3, 40.7), (44.4, 13.3), (2.3, 33.4), (9.9, 37.3), (3.4, 18.5),
   (6.0, 0.4), (28.3, 11.8), (43.7, 12.8), (38.9, 43.0), (47.4, 4.7),
   (31.5, 3.2), (36.6, 32.5)]

/-- `planner_random_goal` (lines 292-316): sends the goal at the drawn
index (the draw is a parameter) unless a goal is `ACTIVE`. -/
def plannerRandomGoal (counter : ℕ) (idx : ℕ)
    (actionState : GoalStatus) : ℕ × Option MoveBaseGoal :=
  if actionState ≠ GoalStatus.active then
    (counter + 1,
     some { goal_id := counter
            targetX := (randomGoals.getD idx (0, 0)).1
            targetY := (randomGoals.getD idx (0, 0)).2 })
  else (counter, none)

/-! ## Perception callback (source lines 143-185) -/

/-- A detection rectangle `(x, y, width, height)` returned by
`detectMultiScale`. -/
abbrev Detection := ℕ × ℕ × ℕ × ℕ

/-- The update `image_callback` performs on the shared state (source
lines 169-174): `artifact_found_` is set from the number of detections
in the current frame, unconditionally overwriting the previous value. -/
def imageCallback (s : ExplorerState) (detections : List Detection) :
    ExplorerState :=
  { s with artifact_found_ := if 0 < detections.length then true else false }

/-! ## The main loop (source lines 429-484) -/

/-- The status-flag updates at the top of each tick (lines 440-447). -/
def statusUpdate (s : ExplorerState) (actionState : GoalStatus) :
    ExplorerState :=
  let s1 := if s.planner_type_ = PlannerType.GO_TO_FIRST_ARTIFACT ∧
      actionState = GoalStatus.succeeded then
    { s with reached_first_artifact_ := true } else s
  if s1.planner_type_ = PlannerType.RETURN_HOME ∧
      actionState = GoalStatus.succeeded then
    { s1 with returned_home_ := true } else s1

/-- The planner-selection block of the main loop (lines 456-464).
`none` means the loop hits `break` and exits.  Note that the branch
reads the attribute `finised_exploring` set in `__init__`, not the
`finished_exploring` attribute written by `planner_to_frontiers`. -/
def selectPlanner (s : ExplorerState) : Option PlannerType :=
  if !s.finised_exploring then some PlannerType.FRONTIER_EXPLORER
  else if !s.returned_home_ then some PlannerType.RETURN_HOME
  else none

/-- One iteration of `main_loop` (lines 431-484): status update, planner
selection, planner execution.  `Except.error` models an uncaught Python
exception killing the loop; `Except.ok none` models the `break`;
otherwise the new state and the goal sent this tick (if any) are
returned.  Only the two planners reachable from the selection logic are
dispatched (lines 472-479 route the others, but `selectPlanner` never
chooses them). -/
def mainLoopTick (s : ExplorerState) (actionState : GoalStatus)
    (g : Grid) :
    Except String (Option (ExplorerState × Option MoveBaseGoal)) :=
  let s1 := statusUpdate s actionState
  match selectPlanner s1 with
  | none => Except.ok none
  | some pt =>
    let s2 := { s1 with planner_type_ := pt }
    match pt with
    | PlannerType.FRONTIER_EXPLORER =>
      match plannerToFrontiers s2 g actionState with
      | Except.error e => Except.error e
      | Except.ok r => Except.ok (some r)
    | PlannerType.RETURN_HOME =>
      let r := plannerReturnHome s2.goal_counter_ actionState
      Except.ok (some ({ s2 with goal_counter_ := r.1 }, r.2))
    | _ => Except.ok (some (s2, none))

/-! ## Concrete grids used as test inputs -/

/-- A 2×2 grid that is entirely `Unknown` (every cell `-1`). -/
def gridAllUnknown : Grid :=
  { width := 2, height := 2, resolution := 1, originX := 0, originY := 0
    data := [-1, -1, -1, -1], hdata := rfl, hres := by norm_num }

/-- A 3×3 grid whose single `Free` cell sits at `(1, 1)` surrounded by
`Unknown`: exactly one frontier cell, so exactly one cluster of size 1,
far below the 500-cell size threshold. -/
def gridOneFree : Grid :=
  { width := 3, height := 3, resolution := 1, originX := 0, originY := 0
    data := [-1, -1, -1, -1, 0, -1, -1, -1, -1], hdata := rfl
    hres := by norm_num }

/-! ## Properties of `wrap_angle` -/

/-- The first loop never returns a negative angle. -/
theorem wrapUp_nonneg (twoPi : ℚ) (h : 0 < twoPi) (angle : ℚ) :
    0 ≤ wrapUp twoPi h angle := by
  induction angle using wrapUp.induct twoPi h with
  | case1 x hx ih =>
    rw [wrapUp]
    simpa [hx] using ih
  | case2 x hx =>
    rw [wrapUp]
    simp [hx]
    linarith [not_lt.mp hx]

/-- The second loop preserves nonnegativity. -/
theorem wrapDown_nonneg (twoPi : ℚ) (h : 0 < twoPi) (angle : ℚ)
    (ha : 0 ≤ angle) : 0 ≤ wrapDown twoPi h angle := by
  induction angle using wrapDown.induct twoPi h with
  | case1 x hx ih =>
    rw [wrapDown]
    simp only [if_pos hx]
    exact ih (by linarith)
  | case2 x hx =>
    rw [wrapDown]
    simp only [if_neg hx]
    exact ha

/-- The second loop's result never exceeds `twoPi` — but it can equal
`twoPi`, because the loop condition is the strict `angle > 2*pi`. -/
theorem wrapDown_le (twoPi : ℚ) (h : 0 < twoPi) (angle : ℚ) :
    wrapDown twoPi h angle ≤ twoPi := by
  induction angle using wrapDown.induct twoPi h with
  | case1 x hx ih =>
    rw [wrapDown]
    simpa [hx] using ih
  | case2 x hx =>
    rw [wrapDown]
    simp only [if_neg hx]
    exact not_lt.mp hx

/-- C9 (amended): for every input angle, `wrap_angle` terminates and its
value lies in the closed interval `[0, 2*pi]` — the closed upper end is
attainable (see the counterexample), so the half-open interval claimed
by the specification does not hold. -/
theorem c9_wrap_angle_closed_interval (twoPi : ℚ) (h : 0 < twoPi)
    (angle : ℚ) :
    0 ≤ wrapAngle twoPi h angle ∧ wrapAngle twoPi h angle ≤ twoPi :=
  ⟨wrapDown_nonneg twoPi h _ (wrapUp_nonneg twoPi h angle),
   wrapDown_le twoPi h _⟩

/-- Witness for C9's amended theorem at `twoPi = 7`, `angle = -9`. -/
theorem c9_wrap_angle_witness :
    0 ≤ wrapAngle 7 (by norm_num) (-9) ∧
      wrapAngle 7 (by norm_num) (-9) ≤ 7 :=
  c9_wrap_angle_closed_interval 7 (by norm_num) (-9)

/-- C9 (counterexample): on the input equal to the wrap constant itself
the source returns the constant unchanged — `wrap_angle(2*pi) = 2*pi` —
which is not in the half-open interval `[0, 2*pi)` the claim states.
(The input is reachable: `get_pose_2d` computes
`wrap_angle(2*acos(qw))`, which is `wrap_angle(2*pi)` at `qw = -1`.) -/
theorem c9_wrap_angle_can_return_two_pi :
    wrapAngle 7 (by norm_num) 7 = 7 ∧
      ¬(wrapAngle 7 (by norm_num) 7 < 7) := by
  have hval : wrapAngle 7 (by norm_num : (0:ℚ) < 7) 7 = 7 := by
    rw [wrapAngle, wrapUp, wrapDown]
    norm_num
  exact ⟨hval, by rw [hval]; exact lt_irrefl 7⟩

/-! ## C10: the artifact flag tracks only the current frame -/

/-- C10: after `image_callback`, `artifact_found_` equals "the current
frame produced at least one detection", regardless of the previous value
of the flag — so a detection in an earlier frame is not latched and is
reset by a detection-free frame. -/
theorem c10_artifact_flag_tracks_current_frame (s : ExplorerState)
    (detections : List Detection) :
    (imageCallback s detections).artifact_found_
        = decide (0 < detections.length) ∧
      ((imageCallback s detections).artifact_found_ = true ↔
        detections ≠ []) := by
  constructor
  · simp [imageCallback]
  · cases detections <;> simp [imageCallback]

/-! ## C8: no planner sends a goal while the action state is `ACTIVE` -/

/-- C8: in a tick whose action state is `ACTIVE`, none of the six
planner routines sends a goal (and none bumps the goal counter). -/
theorem c8_no_goal_while_active (s : ExplorerState) (g : Grid)
    (pose : Pose2D) (cosTheta sinTheta randX randY : ℚ)
    (idx counter : ℕ) (st : GoalStatus) (hst : st = GoalStatus.active) :
    plannerToFrontiers s g st = Except.ok (s, none) ∧
      plannerMoveForwards counter pose cosTheta sinTheta st
        = (counter, none) ∧
      plannerGoToFirstArtifact counter st = (counter, none) ∧
      plannerReturnHome counter st = (counter, none) ∧
      plannerRandomWalk counter randX randY st = (counter, none) ∧
      plannerRandomGoal counter idx st = (counter, none) := by
  subst hst
  refine ⟨?_, ?_, ?_, ?_, ?_, ?_⟩ <;>
    simp [plannerToFrontiers, plannerMoveForwards,
      plannerGoToFirstArtifact, plannerReturnHome, plannerRandomWalk,
      plannerRandomGoal]

/-- Witness for C8 at concrete inputs with `st = ACTIVE`. -/
theorem c8_active_witness :
    plannerReturnHome 0 GoalStatus.active = (0, none) ∧
      plannerToFrontiers initState gridAllUnknown GoalStatus.active
        = Except.ok (initState, none) :=
  ⟨(c8_no_goal_while_active initState gridAllUnknown {} 0 0 0 0 0 0
      GoalStatus.active rfl).2.2.2.1,
   (c8_no_goal_while_active initState gridAllUnknown {} 0 0 0 0 0 0
      GoalStatus.active rfl).1⟩

/-! ## C1: the distance reference point is a zero pose -/

/-- C1 (code evaluated at the failing input): `planner_to_frontiers`
ranks clusters against the freshly constructed `Pose2D()` — whose
coordinates are `(0, 0)` — not against the pose from `get_pose_2d` (which
the routine never calls).  At the concrete input with cluster centroids
`(10, 10)` and `(1, 1)` and the robot actually at `(10, 10)`, the code
selects the cluster at `(1, 1)`, although the cluster at `(10, 10)` is
the one closer to the robot's actual pose. -/
theorem c1_selection_uses_zero_pose :
    plannerRobotPose.x = 0 ∧ plannerRobotPose.y = 0 ∧
      selectClosestGroup [[((10 : ℤ), (10 : ℤ))], [((1 : ℤ), (1 : ℤ))]]
          1 0 0 plannerRobotPose.x plannerRobotPose.y
        = some [((1 : ℤ), (1 : ℤ))] ∧
      sqDist (worldCentroid [((10 : ℤ), (10 : ℤ))] 1 0 0) (10, 10)
        < sqDist (worldCentroid [((1 : ℤ), (1 : ℤ))] 1 0 0) (10, 10) := by
  refine ⟨rfl, rfl, ?_, ?_⟩
  · show selectClosestGroup _ 1 0 0 0 0 = _
    simp [selectClosestGroup, worldCentroid, sqDist]
    norm_num
  · simp [sqDist, worldCentroid]
    norm_num

/-! ## C2: the exploring → returning-home transition never happens -/

/-- C2 (code evaluated at the failing input): on a tick whose grid has
no frontier cells, `main_loop` does not select `RETURN_HOME` next tick —
it dies inside `planner_to_frontiers` with the `ValueError` raised at
the logging line; and even a state in which the planner's
`finished_exploring = True` assignment had happened still selects
`FRONTIER_EXPLORER`, because the selection logic reads the separate,
never-written attribute `finised_exploring`. -/
theorem c2_no_transition_to_return_home :
    mainLoopTick initState GoalStatus.lost gridAllUnknown
        = Except.error "ValueError: max() arg is an empty sequence" ∧
      selectPlanner { initState with finished_exploring := true }
        = some PlannerType.FRONTIER_EXPLORER ∧
      ({ initState with finished_exploring := true } :
          ExplorerState).finised_exploring = false :=
  ⟨rfl, rfl, rfl⟩

/-! ## C3: degenerate frontier input crashes the planner -/

/-- C3 (code evaluated at the failing inputs): a tick with no frontier
cells raises `ValueError` (from `max` over the empty frontier list), and
a tick whose frontier cells all fall into clusters below the minimum
size raises `TypeError` (iterating over the still-`None`
`closest_frontier_group`) — the planner neither dispatches a goal nor
signals exploration complete on either input. -/
theorem c3_planner_raises_on_degenerate_input :
    plannerToFrontiers initState gridAllUnknown GoalStatus.lost
        = Except.error "ValueError: max() arg is an empty sequence" ∧
      plannerToFrontiers initState gridOneFree GoalStatus.lost
        = Except.error "TypeError: NoneType object is not iterable" := by
  constructor
  · rfl
  · have hfc : frontierCellsG gridOneFree = [(1, 1)] := by decide
    have hwf : worldFrontiers gridOneFree = [(1, 1)] := by
      simp [worldFrontiers, hfc]
      norm_num [gridOneFree]
    have hq : buildQueue gridOneFree = [(1, 1)] := by
      simp [buildQueue, hwf]
      norm_num [gridOneFree, pyTrunc]
    have hgroups :
        (clusterFrontiers gridOneFree.width gridOneFree.height
          (buildQueue gridOneFree)).1 = [] := by
      rw [hq]; decide
    simp [plannerToFrontiers, hwf, hgroups, selectClosestGroup]

/-! ## C6: frontier detection returns exactly the free-with-unknown-
neighbour cells -/

/-- Membership characterisation of the in-bounds 8-neighbourhood built
at source line 337: the in-bounds cells at Chebyshev distance exactly
one (i.e. within one step in each coordinate and distinct from the
centre). -/
theorem neighbours8_mem (w h x y nx ny : ℕ) :
    (nx, ny) ∈ neighbours8 w h x y ↔
      nx < w ∧ ny < h ∧ (nx, ny) ≠ (x, y) ∧
      (nx : ℤ) ≤ (x : ℤ) + 1 ∧ (x : ℤ) ≤ (nx : ℤ) + 1 ∧
      (ny : ℤ) ≤ (y : ℤ) + 1 ∧ (y : ℤ) ≤ (ny : ℤ) + 1 := by
  simp only [neighbours8, deltas, List.mem_filterMap, List.mem_cons,
    List.not_mem_nil, or_false, Option.ite_none_right_eq_some,
    Option.some.injEq, Prod.mk.injEq, Prod.ext_iff, ne_eq]
  constructor
  · rintro ⟨d, hd, ⟨hb1, hb2, hb3, hb4⟩, hx, hy⟩
    rcases hd with ⟨e1, e2⟩ | ⟨e1, e2⟩ | ⟨e1, e2⟩ | ⟨e1, e2⟩ | ⟨e1, e2⟩ |
      ⟨e1, e2⟩ | ⟨e1, e2⟩ | ⟨e1, e2⟩ <;> omega
  · rintro ⟨h1, h2, h3, h4, h5, h6, h7⟩
    refine ⟨((nx : ℤ) - x, (ny : ℤ) - y), ?_, ⟨?_, ?_, ?_, ?_⟩, ?_, ?_⟩
    · simp only [Prod.ext_iff]
      omega
    · omega
    · omega
    · omega
    · omega
    · omega
    · omega

/-- The detection loop produces exactly the in-bounds free cells with an
unknown in-bounds 8-neighbour. -/
theorem frontierCellsG_mem (g : Grid) (x y : ℕ) :
    (x, y) ∈ frontierCellsG g ↔
      x < g.width ∧ y < g.height ∧ cellAt g y x = 0 ∧
      ∃ nb ∈ neighbours8 g.width g.height x y, cellAt g nb.2 nb.1 = -1 := by
  simp only [frontierCellsG, List.mem_flatMap, List.mem_filterMap,
    List.mem_range, Option.ite_none_right_eq_some, Option.some.injEq,
    Prod.mk.injEq, List.any_eq_true, decide_eq_true_eq]
  constructor
  · rintro ⟨y', hy', x', hx', ⟨hc, hnb⟩, hx, hy⟩
    subst hx; subst hy
    exact ⟨hx', hy', hc, hnb⟩
  · rintro ⟨hx, hy, hc, hnb⟩
    exact ⟨y, hy, x, hx, ⟨hc, hnb⟩, rfl, rfl⟩

/-- The detection loop visits each cell once, so no duplicates. -/
theorem frontierCellsG_nodup (g : Grid) : (frontierCellsG g).Nodup := by
  rw [frontierCellsG]
  refine List.nodup_flatMap.mpr ⟨?_, ?_⟩
  · intro y _
    refine List.Nodup.filterMap ?_ (List.nodup_range _)
    intro a a' b hb hb'
    rw [Option.mem_def] at hb hb'
    split at hb
    · split at hb'
      · cases hb; cases hb'; rfl
      · cases hb'
    · cases hb
  · have hp : (List.range g.height).Pairwise (· < ·) :=
      List.pairwise_lt_range g.height
    refine hp.imp ?_
    intro y y' hlt c hc hc'
    simp only [Function.onFun, List.mem_filterMap,
      Option.ite_none_right_eq_some, Option.some.injEq] at hc hc'
    obtain ⟨a, _, _, hca⟩ := hc
    obtain ⟨a', _, _, hca'⟩ := hc'
    rw [← hca'] at hca
    cases hca
    exact absurd rfl (Nat.ne_of_lt hlt)

/-- C6: frontier detection returns, without duplicates, exactly the
cells that are free (value 0) and have at least one in-bounds 8-neighbour
that is unknown (value -1); hence any grid with no free cell — entirely
unknown, entirely occupied, or otherwise free-less — yields the empty
frontier list rather than an error. -/
theorem c6_frontier_detection_correct (g : Grid) :
    (frontierCellsG g).Nodup ∧
      (∀ x y : ℕ, ((x, y) ∈ frontierCellsG g ↔
        x < g.width ∧ y < g.height ∧ cellAt g y x = 0 ∧
        ∃ nx ny : ℕ, nx < g.width ∧ ny < g.height ∧ (nx, ny) ≠ (x, y) ∧
          (nx : ℤ) ≤ (x : ℤ) + 1 ∧ (x : ℤ) ≤ (nx : ℤ) + 1 ∧
          (ny : ℤ) ≤ (y : ℤ) + 1 ∧ (y : ℤ) ≤ (ny : ℤ) + 1 ∧
          cellAt g ny nx = -1)) ∧
      ((∀ y ∈ List.range g.height, ∀ x ∈ List.range g.width,
          cellAt g y x ≠ 0) → frontierCellsG g = []) := by
  refine ⟨frontierCellsG_nodup g, ?_, ?_⟩
  · intro x y
    rw [frontierCellsG_mem]
    simp only [Prod.exists, neighbours8_mem]
    constructor
    · rintro ⟨h1, h2, h3, nx, ny, ⟨m1, m2, m3, m4, m5, m6, m7⟩, hcell⟩
      exact ⟨h1, h2, h3, nx, ny, m1, m2, m3, m4, m5, m6, m7, hcell⟩
    · rintro ⟨h1, h2, h3, nx, ny, m1, m2, m3, m4, m5, m6, m7, hcell⟩
      exact ⟨h1, h2, h3, nx, ny, ⟨m1, m2, m3, m4, m5, m6, m7⟩, hcell⟩
  · intro hno
    rw [List.eq_nil_iff_forall_not_mem]
    rintro ⟨x, y⟩ hc
    rw [frontierCellsG_mem] at hc
    exact hno y (List.mem_range.mpr hc.2.1) x (List.mem_range.mpr hc.1)
      hc.2.2.1

/-- Witness for C6 at the entirely unknown grid: the implication's
hypothesis (no free cell) holds, so the frontier list is empty. -/
theorem c6_detection_witness : frontierCellsG gridAllUnknown = [] :=
  (c6_frontier_detection_correct gridAllUnknown).2.2 (by decide)

/-! ## C5 and C4: the grouping pass

The worklist grouping of `planner_to_frontiers` (source lines 344-379)
partitions its input queue: the key invariants are that the cells moved
out of the queue by the inner loop are exactly the cells added to
`visited` and to the current group (`bfsVisit_spec`), and that the outer
loop consumes the whole queue group by group (`clusterLoop_spec`). -/

/-- `List.perm_cons_erase`, generalised to any lawful `BEq` instance
(the embedding's cell lists use the product instance). -/
theorem perm_cons_erase_beq {α : Type} [BEq α] [LawfulBEq α] {a : α} :
    ∀ {l : List α}, a ∈ l → l.Perm (a :: l.erase a) := by
  intro l
  induction l with
  | nil => intro h; cases h
  | cons b t ih =>
    intro h
    rw [List.erase_cons]
    by_cases hba : b = a
    · subst hba
      simp
    · have hf : (b == a) = false := beq_eq_false_iff_ne.mpr hba
      rw [hf]
      simp only [Bool.false_eq_true, if_false]
      have hat : a ∈ t := by
        rcases List.mem_cons.mp h with h1 | h1
        · exact absurd h1.symm hba
        · exact h1
      exact ((ih hat).cons b).trans (List.Perm.swap a b _)

/-- Unfolding step of the neighbour-moving fold. -/
theorem moveNeighbours_cons (n : Cell) (ns : List Cell)
    (queue tv : List Cell) :
    moveNeighbours (n :: ns) queue tv =
      if n ∈ queue then moveNeighbours ns (queue.erase n) (tv ++ [n])
      else moveNeighbours ns queue tv := by
  by_cases hn : n ∈ queue <;> simp [moveNeighbours, hn]

/-- Moving neighbours from `queue` to `to_visit` only relocates cells:
the multiset `queue ++ to_visit` is preserved. -/
theorem moveNeighbours_perm (nbrs : List Cell) :
    ∀ queue tv : List Cell,
      ((moveNeighbours nbrs queue tv).1 ++
        (moveNeighbours nbrs queue tv).2).Perm (queue ++ tv) := by
  induction nbrs with
  | nil => intro queue tv; simp [moveNeighbours]
  | cons n ns ih =>
    intro queue tv
    rw [moveNeighbours_cons]
    by_cases hn : n ∈ queue
    · rw [if_pos hn]
      refine (ih _ _).trans ?_
      rw [← List.append_assoc]
      refine (List.perm_append_singleton n _).trans ?_
      have hfin := ((perm_cons_erase_beq hn).symm).append_right tv
      simpa using hfin
    · rw [if_neg hn]
      exact ih _ _

/-- Cells already on `to_visit` stay on it. -/
theorem moveNeighbours_sub (nbrs : List Cell) :
    ∀ (queue tv : List Cell) (c : Cell), c ∈ tv →
      c ∈ (moveNeighbours nbrs queue tv).2 := by
  induction nbrs with
  | nil => intro queue tv c hc; simpa [moveNeighbours] using hc
  | cons n ns ih =>
    intro queue tv c hc
    rw [moveNeighbours_cons]
    by_cases hn : n ∈ queue
    · rw [if_pos hn]
      exact ih _ _ c (List.mem_append_left _ hc)
    · rw [if_neg hn]
      exact ih _ _ c hc

/-- Invariant of the inner worklist loop: under the loop's own invariant
(queue and worklist hold distinct, unvisited cells), the loop moves some
set of cells out of `queue ++ to_visit`, appending exactly those cells to
both `visited` and the current group, and consumes the whole worklist. -/
theorem bfsVisit_spec (w h : ℕ) :
    ∀ (fuel : ℕ) (queue tv vis grp : List Cell),
      queue.length + tv.length ≤ fuel →
      (queue ++ tv).Nodup →
      (∀ c ∈ queue ++ tv, c ∉ vis) →
      ∃ q2 moved,
        bfsVisit w h fuel queue tv vis grp
          = (q2, vis ++ moved, grp ++ moved) ∧
        (q2 ++ moved).Perm (queue ++ tv) ∧
        ∀ c ∈ tv, c ∈ moved := by
  intro fuel
  induction fuel with
  | zero =>
    intro queue tv vis grp hlen _ _
    have hq : queue = [] := List.eq_nil_of_length_eq_zero (by omega)
    have ht : tv = [] := List.eq_nil_of_length_eq_zero (by omega)
    subst hq; subst ht
    exact ⟨[], [], by simp [bfsVisit], by simp, by simp⟩
  | succ fuel ih =>
    intro queue tv vis grp hlen hnd hdisj
    match tv with
    | [] =>
      exact ⟨queue, [], by simp [bfsVisit], by simp, by simp⟩
    | f :: rest =>
      have hf : f ∉ vis := hdisj f (by simp)
      have hstep :
          bfsVisit w h (fuel + 1) queue (f :: rest) vis grp =
            bfsVisit w h fuel
              (moveNeighbours (neighboursZ w h f) queue rest).1
              (moveNeighbours (neighboursZ w h f) queue rest).2
              (vis ++ [f]) (grp ++ [f]) := by
        rw [bfsVisit]
        rw [if_neg hf]
      have perm0 := moveNeighbours_perm (neighboursZ w h f) queue rest
      have hndqr : (queue ++ rest).Nodup := by
        refine List.Sublist.nodup ?_ hnd
        exact (List.sublist_cons_self f rest).append_left queue
      have hfq : f ∉ queue ∧ f ∉ rest := by
        rw [List.nodup_append] at hnd
        obtain ⟨-, hnfr, hdq⟩ := hnd
        exact ⟨fun hin => hdq hin (by simp), by
          simpa using (List.nodup_cons.mp hnfr).1⟩
      have hnd0 : ((moveNeighbours (neighboursZ w h f) queue rest).1 ++
          (moveNeighbours (neighboursZ w h f) queue rest).2).Nodup :=
        perm0.symm.nodup hndqr
      have hlen0 :
          (moveNeighbours (neighboursZ w h f) queue rest).1.length +
            (moveNeighbours (neighboursZ w h f) queue rest).2.length
              ≤ fuel := by
        have := perm0.length_eq
        simp only [List.length_append] at this
        simp only [List.length_append, List.length_cons] at hlen
        omega
      have hdisj0 : ∀ c ∈ (moveNeighbours (neighboursZ w h f) queue rest).1
          ++ (moveNeighbours (neighboursZ w h f) queue rest).2,
          c ∉ vis ++ [f] := by
        intro c hc
        have hc' : c ∈ queue ++ rest := perm0.mem_iff.mp hc
        have hcv : c ∉ vis := by
          refine hdisj c ?_
          rcases List.mem_append.mp hc' with h1 | h1
          · exact List.mem_append_left _ h1
          · exact List.mem_append_right _ (List.mem_cons_of_mem f h1)
        have hcf : c ≠ f := by
          intro heq
          subst heq
          rcases List.mem_append.mp hc' with h1 | h1
          · exact hfq.1 h1
          · exact hfq.2 h1
        simp [List.mem_append, hcv, hcf]
      obtain ⟨q2, moved, heq, hperm, hsub⟩ :=
        ih _ _ (vis ++ [f]) (grp ++ [f]) hlen0 hnd0 hdisj0
      refine ⟨q2, f :: moved, ?_, ?_, ?_⟩
      · rw [hstep, heq]
        simp
      · refine List.perm_middle.trans ?_
        refine ((hperm.trans perm0).cons f).trans ?_
        exact List.perm_middle.symm
      · intro c hc
        rcases List.mem_cons.mp hc with h1 | h1
        · exact h1 ▸ List.mem_cons_self f moved
        · exact List.mem_cons_of_mem f
            (hsub c (moveNeighbours_sub _ _ _ c h1))

/-- Invariant of the outer loop: the groups formed consume the queue
exactly — their concatenation is a permutation of the queue — and the
retained list collects exactly the groups passing the size check. -/
theorem clusterLoop_spec (w h : ℕ) :
    ∀ (fuel : ℕ) (queue vis : List Cell) (gs ags : List (List Cell)),
      queue.length ≤ fuel → queue.Nodup → (∀ c ∈ queue, c ∉ vis) →
      ∃ groups : List (List Cell),
        clusterLoop w h fuel queue vis gs ags
          = (gs ++ groups.filter (fun grp => groupRetained grp),
             ags ++ groups) ∧
        groups.flatten.Perm queue := by
  intro fuel
  induction fuel with
  | zero =>
    intro queue vis gs ags hlen _ _
    have hq : queue = [] := List.eq_nil_of_length_eq_zero (by omega)
    subst hq
    exact ⟨[], by simp [clusterLoop], by simp⟩
  | succ fuel ih =>
    intro queue vis gs ags hlen hnd hdisj
    match queue with
    | [] => exact ⟨[], by simp [clusterLoop], by simp⟩
    | c :: queue =>
      have hc : c ∉ vis := hdisj c (by simp)
      have hndq : (queue ++ [c]).Nodup :=
        ((List.perm_append_singleton c queue).symm).nodup hnd
      have hdisjq : ∀ x ∈ queue ++ [c], x ∉ vis := by
        intro x hx
        refine hdisj x ?_
        have := (List.perm_append_singleton c queue).mem_iff.mp hx
        exact this
      obtain ⟨q2, moved, heq, hperm, hsub⟩ :=
        bfsVisit_spec w h (queue.length + 1) queue [c] vis []
          (by simp) hndq hdisjq
      have hcmoved : c ∈ moved := hsub c (by simp)
      have hq2len : q2.length ≤ queue.length := by
        have hl := hperm.length_eq
        have hm : 0 < moved.length := List.length_pos_of_mem hcmoved
        simp only [List.length_append, List.length_cons,
          List.length_nil] at hl
        omega
      have hndq2m : (q2 ++ moved).Nodup := hperm.symm.nodup hndq
      have hndq2 : q2.Nodup := (List.nodup_append.mp hndq2m).1
      have hdisj2 : ∀ x ∈ q2, x ∉ vis ++ moved := by
        intro x hx
        have hxq : x ∈ queue ++ [c] :=
          hperm.mem_iff.mp (List.mem_append_left _ hx)
        have hxv : x ∉ vis := hdisjq x hxq
        have hxm : x ∉ moved := fun hm =>
          (List.nodup_append.mp hndq2m).2.2 hx hm
        simp [List.mem_append, hxv, hxm]
      obtain ⟨groups, heq2, hperm2⟩ :=
        ih q2 (vis ++ moved)
          (if groupRetained moved then gs ++ [moved] else gs)
          (ags ++ [moved]) (by simp at hlen; omega) hndq2 hdisj2
      refine ⟨moved :: groups, ?_, ?_⟩
      · have hstep : clusterLoop w h (fuel + 1) (c :: queue) vis gs ags =
            clusterLoop w h fuel q2 (vis ++ moved)
              (if groupRetained moved then gs ++ [moved] else gs)
              (ags ++ [moved]) := by
          rw [clusterLoop, if_neg hc, heq]
          simp
        rw [hstep, heq2]
        rw [Prod.mk.injEq]
        constructor
        · rw [List.filter_cons]
          by_cases hr : groupRetained moved <;>
            simp [hr, List.append_assoc]
        · simp [List.append_assoc]
      · simp only [List.flatten_cons]
        refine (hperm2.append_left moved).trans ?_
        refine List.perm_append_comm.trans ?_
        exact hperm.trans (List.perm_append_singleton c queue)

/-- The retained groups are exactly the formed groups passing the
`len(current_group) > 500` check, in formation order (no well-formedness
assumptions needed). -/
theorem clusterLoop_filter (w h : ℕ) :
    ∀ (fuel : ℕ) (queue vis : List Cell) (gs ags : List (List Cell)),
      ∃ groups : List (List Cell),
        clusterLoop w h fuel queue vis gs ags
          = (gs ++ groups.filter (fun grp => groupRetained grp),
             ags ++ groups) := by
  intro fuel
  induction fuel with
  | zero => intro queue vis gs ags; exact ⟨[], by simp [clusterLoop]⟩
  | succ fuel ih =>
    intro queue vis gs ags
    match queue with
    | [] => exact ⟨[], by simp [clusterLoop]⟩
    | c :: queue =>
      by_cases hc : c ∈ vis
      · obtain ⟨groups, hg⟩ := ih queue vis gs ags
        exact ⟨groups, by rw [clusterLoop, if_pos hc]; exact hg⟩
      · obtain ⟨groups, hg⟩ := ih
          (bfsVisit w h (queue.length + 1) queue [c] vis []).1
          (bfsVisit w h (queue.length + 1) queue [c] vis []).2.1
          (if groupRetained
              (bfsVisit w h (queue.length + 1) queue [c] vis []).2.2 then
            gs ++ [(bfsVisit w h (queue.length + 1) queue [c] vis []).2.2]
          else gs)
          (ags ++ [(bfsVisit w h (queue.length + 1) queue [c] vis []).2.2])
        refine ⟨(bfsVisit w h (queue.length + 1) queue [c] vis []).2.2
          :: groups, ?_⟩
        rw [clusterLoop, if_neg hc]
        show clusterLoop w h fuel _ _ _ _ = _
        rw [hg, Prod.mk.injEq]
        constructor
        · rw [List.filter_cons]
          by_cases hr : groupRetained
              (bfsVisit w h (queue.length + 1) queue [c] vis []).2.2 <;>
            simp [hr, List.append_assoc]
        · simp [List.append_assoc]


/-- C4 (amended): the retention predicate applied to each formed cluster
is the STRICT `count > 500` of source line 378 — the retained list is
exactly the formed groups passing `groupRetained`, and `groupRetained`
holds iff the cluster has at least 501 cells.  A cluster of exactly 500
cells is therefore discarded (see the counterexample), contrary to the
claimed `count >= 500`. -/
theorem c4_retention_is_strict (w h : ℕ) (queue : List Cell) :
    (clusterFrontiers w h queue).1
        = (clusterFrontiers w h queue).2.filter
            (fun grp => groupRetained grp) ∧
      (∀ grp : List Cell, groupRetained grp = true ↔ 501 ≤ grp.length) := by
  constructor
  · obtain ⟨groups, hg⟩ :=
      clusterLoop_filter w h (queue.length + 1) queue [] [] []
    show (clusterLoop w h (queue.length + 1) queue [] [] []).1
      = (clusterLoop w h (queue.length + 1) queue [] [] []).2.filter _
    rw [hg]
    simp
  · intro grp
    simp only [groupRetained, decide_eq_true_eq]
    omega

set_option maxRecDepth 4000 in
/-- C4 (counterexample): a cluster with exactly 500 cells — the claimed
boundary that should be retained — fails the source's retention check. -/
theorem c4_boundary_cluster_discarded :
    groupRetained ((List.range 500).map (fun i => ((i : ℤ), (0 : ℤ))))
        = false ∧
      ((List.range 500).map (fun i => ((i : ℤ), (0 : ℤ)))).length = 500 := by
  have hlen : ((List.range 500).map
      (fun i => ((i : ℤ), (0 : ℤ)))).length = 500 := by
    decide
  refine ⟨?_, hlen⟩
  simp only [groupRetained, hlen]
  rfl

/-- In a duplicate-free flattening, each element is counted by exactly
one of the sublists. -/
theorem countP_flatten_nodup {α : Type} (L : List (List α)) (c : α)
    (p : List α → Bool) (hp : ∀ grp, p grp = true ↔ c ∈ grp) :
    L.flatten.Nodup → c ∈ L.flatten → L.countP p = 1 := by
  induction L with
  | nil =>
    intro _ hc
    simp at hc
  | cons g L ih =>
    intro hnd hc
    rw [List.flatten_cons] at hnd hc
    rw [List.countP_cons]
    obtain ⟨hgnd, hLnd, hdisj⟩ := List.nodup_append.mp hnd
    rcases List.mem_append.mp hc with h1 | h1
    · have hnotL : c ∉ L.flatten := fun hL => hdisj h1 hL
      have hz : L.countP p = 0 := by
        rw [List.countP_eq_zero]
        intro grp hgrp hpg
        exact hnotL (List.mem_flatten.mpr ⟨grp, hgrp, (hp grp).mp hpg⟩)
      have hpg : p g = true := (hp g).mpr h1
      simp [hz, hpg]
    · have hng : c ∉ g := fun hg => hdisj hg h1
      have hone := ih hLnd h1
      have hpg : p g = false := by
        rw [← Bool.not_eq_true, hp g]
        exact hng
      simp [hone, hpg]

/-- C5: for every duplicate-free frontier-cell set (the detection step
produces no duplicates), the groups formed by the grouping pass —
retained and discarded alike — are an exact partition of the input:
their concatenation is a permutation of the input, every group's cells
come from the input, the groups are pairwise disjoint, and every input
cell lies in exactly one group. -/
theorem c5_clusters_partition_frontiers (w h : ℕ) (queue : List Cell)
    (hq : queue.Nodup) :
    ((clusterFrontiers w h queue).2.flatten.Perm queue) ∧
      (∀ grp ∈ (clusterFrontiers w h queue).2, ∀ c ∈ grp, c ∈ queue) ∧
      List.Pairwise List.Disjoint (clusterFrontiers w h queue).2 ∧
      (∀ c ∈ queue,
        (clusterFrontiers w h queue).2.countP
          (fun grp => decide (c ∈ grp)) = 1) := by
  obtain ⟨groups, heq, hperm⟩ :=
    clusterLoop_spec w h (queue.length + 1) queue [] [] []
      (by omega) hq (by simp)
  have hags : (clusterFrontiers w h queue).2 = groups := by
    show (clusterLoop w h (queue.length + 1) queue [] [] []).2 = groups
    rw [heq]
    simp
  rw [hags]
  have hndflat : groups.flatten.Nodup := hperm.symm.nodup hq
  refine ⟨hperm, ?_, ?_, ?_⟩
  · intro grp hgrp c hcg
    exact hperm.mem_iff.mp (List.mem_flatten.mpr ⟨grp, hgrp, hcg⟩)
  · exact (List.nodup_flatten.mp hndflat).2
  · intro c hcq
    exact countP_flatten_nodup groups c _ (fun grp => by simp)
      hndflat (hperm.mem_iff.mpr hcq)

/-- Witness for C5 at a concrete three-cell queue (two adjacent cells
and one isolated cell: two groups). -/
theorem c5_partition_witness :
    (clusterFrontiers 20 20
        [((0 : ℤ), (0 : ℤ)), ((1 : ℤ), (1 : ℤ)),
          ((10 : ℤ), (10 : ℤ))]).2.flatten.Perm
      [((0 : ℤ), (0 : ℤ)), ((1 : ℤ), (1 : ℤ)), ((10 : ℤ), (10 : ℤ))] :=
  (c5_clusters_partition_frontiers 20 20 _ (by decide)).1

/-! ## C7: goal selection is an argmin with first-wins tie-break, but
relative to the zero pose the code substitutes for the robot pose -/


/-- Invariant of the selection loop's running minimum: starting from the
accumulator `(b, dist b)`, the fold returns the first group of `b :: gs`
attaining the minimal squared distance (strictly smaller than every group
before it, no larger than every group of the list). -/
theorem selectFold_aux (res ox oy rx ry : ℚ) :
    ∀ (gs : List (List Cell)) (b : List Cell),
      ∃ pre grp post,
        b :: gs = pre ++ grp :: post ∧
        (gs.foldl
          (fun acc g =>
            let d := sqDist (worldCentroid g res ox oy) (rx, ry)
            match acc with
            | none => some (g, d)
            | some best => if d < best.2 then some (g, d) else some best)
          (some (b, sqDist (worldCentroid b res ox oy) (rx, ry)))).map
            Prod.fst = some grp ∧
        (∀ g' ∈ b :: gs,
          sqDist (worldCentroid grp res ox oy) (rx, ry)
            ≤ sqDist (worldCentroid g' res ox oy) (rx, ry)) ∧
        (∀ g' ∈ pre,
          sqDist (worldCentroid grp res ox oy) (rx, ry)
            < sqDist (worldCentroid g' res ox oy) (rx, ry)) := by
  intro gs
  induction gs with
  | nil =>
    intro b
    refine ⟨[], b, [], rfl, rfl, ?_, by simp⟩
    intro g' hg'
    simp at hg'
    subst hg'
    exact le_refl _
  | cons g gs ih =>
    intro b
    by_cases hlt : sqDist (worldCentroid g res ox oy) (rx, ry)
        < sqDist (worldCentroid b res ox oy) (rx, ry)
    · obtain ⟨pre, grp, post, hsplit, hfold, hmin, hstrict⟩ := ih g
      refine ⟨b :: pre, grp, post, by rw [List.cons_append, ← hsplit],
        ?_, ?_, ?_⟩
      · rw [List.foldl_cons]
        simp only [if_pos hlt]
        exact hfold
      · intro g' hg'
        rcases List.mem_cons.mp hg' with h1 | h1
        · have hgrpg := hmin g (List.mem_cons_self g gs)
          rw [h1]
          linarith
        · exact hmin g' h1
      · intro g' hg'
        rcases List.mem_cons.mp hg' with h1 | h1
        · have hgrpg := hmin g (List.mem_cons_self g gs)
          rw [h1]
          linarith
        · exact hstrict g' h1
    · obtain ⟨pre, grp, post, hsplit, hfold, hmin, hstrict⟩ := ih b
      have hble : sqDist (worldCentroid b res ox oy) (rx, ry)
          ≤ sqDist (worldCentroid g res ox oy) (rx, ry) := le_of_not_lt hlt
      cases pre with
      | nil =>
        rw [List.nil_append] at hsplit
        injection hsplit with hgb hpost
        rw [← hgb] at hfold hmin
        refine ⟨[], b, g :: gs, rfl, ?_, ?_, by simp⟩
        · rw [List.foldl_cons]
          simp only [if_neg hlt]
          exact hfold
        · intro g' hg'
          rcases List.mem_cons.mp hg' with h1 | h1
          · rw [h1]
          · rcases List.mem_cons.mp h1 with h2 | h2
            · have hb := hmin b (List.mem_cons_self b gs)
              rw [h2]
              linarith
            · exact hmin g' (List.mem_cons_of_mem _ h2)
      | cons p pre =>
        rw [List.cons_append] at hsplit
        injection hsplit with hpb htail
        rw [← hpb] at hstrict
        have hstrictb : sqDist (worldCentroid grp res ox oy) (rx, ry)
            < sqDist (worldCentroid b res ox oy) (rx, ry) :=
          hstrict b (List.mem_cons_self b pre)
        refine ⟨b :: g :: pre, grp, post, ?_, ?_, ?_, ?_⟩
        · rw [htail]
          simp
        · rw [List.foldl_cons]
          simp only [if_neg hlt]
          exact hfold
        · intro g' hg'
          rcases List.mem_cons.mp hg' with h1 | h1
          · rw [h1]
            exact hmin b (List.mem_cons_self b _)
          · rcases List.mem_cons.mp h1 with h2 | h2
            · rw [h2]
              linarith
            · exact hmin g' (List.mem_cons_of_mem _ h2)
        · intro g' hg'
          rcases List.mem_cons.mp hg' with h1 | h1
          · rw [h1]
            exact hstrictb
          · rcases List.mem_cons.mp h1 with h2 | h2
            · rw [h2]
              linarith
            · exact hstrict g' (List.mem_cons_of_mem _ h2)

/-- C7 (amended): when at least one valid cluster exists, the selection
loop picks the first-in-enumeration-order cluster whose world centroid
minimises the Euclidean distance to the reference point the code actually
uses (the zero pose constructed at line 383, not the robot pose — see the
counterexample), and the dispatched goal's target position equals that
cluster's world-frame centroid, with the goal id drawn from the counter.
Squared distances order exactly as the source's square-rooted ones. -/
theorem c7_selection_argmin_zero_pose (groups : List (List Cell))
    (res ox oy rx ry : ℚ) (hne : groups ≠ []) (counter : ℕ) :
    ∃ pre grp post,
      groups = pre ++ grp :: post ∧
      selectClosestGroup groups res ox oy rx ry = some grp ∧
      (∀ g' ∈ groups, sqDist (worldCentroid grp res ox oy) (rx, ry)
        ≤ sqDist (worldCentroid g' res ox oy) (rx, ry)) ∧
      (∀ g' ∈ pre, sqDist (worldCentroid grp res ox oy) (rx, ry)
        < sqDist (worldCentroid g' res ox oy) (rx, ry)) ∧
      (frontierGoal counter grp res ox oy).targetX
        = (worldCentroid grp res ox oy).1 ∧
      (frontierGoal counter grp res ox oy).targetY
        = (worldCentroid grp res ox oy).2 ∧
      (frontierGoal counter grp res ox oy).goal_id = counter := by
  match groups, hne with
  | b :: gs, _ =>
    obtain ⟨pre, grp, post, hsplit, hfold, hmin, hstrict⟩ :=
      selectFold_aux res ox oy rx ry gs b
    refine ⟨pre, grp, post, hsplit, ?_, hmin, hstrict, rfl, rfl, rfl⟩
    show (List.foldl _ none (b :: gs)).map Prod.fst = some grp
    rw [List.foldl_cons]
    exact hfold

/-- Witness for C7's amended theorem at a concrete singleton group. -/
theorem c7_selection_witness :
    ∃ pre grp post,
      [[((0 : ℤ), (0 : ℤ))]] = pre ++ grp :: post ∧
      selectClosestGroup [[((0 : ℤ), (0 : ℤ))]] 1 0 0 0 0 = some grp ∧
      (∀ g' ∈ [[((0 : ℤ), (0 : ℤ))]],
        sqDist (worldCentroid grp 1 0 0) (0, 0)
          ≤ sqDist (worldCentroid g' 1 0 0) (0, 0)) ∧
      (∀ g' ∈ pre, sqDist (worldCentroid grp 1 0 0) (0, 0)
        < sqDist (worldCentroid g' 1 0 0) (0, 0)) ∧
      (frontierGoal 0 grp 1 0 0).targetX = (worldCentroid grp 1 0 0).1 ∧
      (frontierGoal 0 grp 1 0 0).targetY = (worldCentroid grp 1 0 0).2 ∧
      (frontierGoal 0 grp 1 0 0).goal_id = 0 :=
  c7_selection_argmin_zero_pose [[((0 : ℤ), (0 : ℤ))]] 1 0 0 0 0
    (by simp) 0

/-- C7 (counterexample): with valid clusters whose centroids are (8, 8)
and (2, 2) and the robot actually at (8, 8), the code (whose reference
point is `plannerRobotPose`, the zero pose) selects the cluster at
(2, 2), which is not the cluster of minimal Euclidean distance to the
robot pose — refuting the claim as stated. -/
theorem c7_not_closest_to_robot_pose :
    selectClosestGroup [[((8 : ℤ), (8 : ℤ))], [((2 : ℤ), (2 : ℤ))]] 1 0 0
        plannerRobotPose.x plannerRobotPose.y
      = some [((2 : ℤ), (2 : ℤ))] ∧
      sqDist (worldCentroid [((8 : ℤ), (8 : ℤ))] 1 0 0) (8, 8)
        < sqDist (worldCentroid [((2 : ℤ), (2 : ℤ))] 1 0 0) (8, 8) := by
  constructor
  · show selectClosestGroup _ 1 0 0 0 0 = _
    simp [selectClosestGroup, worldCentroid, sqDist]
    norm_num
  · simp [sqDist, worldCentroid]
    norm_num

end CaveExplorer
